import Mathlib

/-!
Shallow embedding of `src/TMF673_GeographicAddress/utils/entrypoint.js`,
the discovery-document ("entrypoint") responder of the billing-connector
repository, together with proofs of the testable properties of its
specification.

Modelling conventions
* JavaScript objects are ordered association lists `List (String × _)`;
  property read is first-match lookup (`jsGet`), property assignment
  updates an existing key in place and otherwise appends (`jsSet`),
  matching JS object insertion-order semantics.
* JSON-compatible values are the inductive `Val`; JS truthiness is
  `truthy` (empty string, `0`, `false`, `null` are falsy; arrays and
  objects are truthy).
* The specification document returned by the external loader
  (`getSwaggerDoc`, a collaborator outside this component) is an
  `Option SpecDoc`: `none` is an absent (`undefined`/`null`) document.
  A loader that throws is modelled by the `Except JsError` input of
  `entrypoint`.
* Thrown JS exceptions are `Except.error (e : JsError)`; the `try`/`catch`
  of the source is the outer `match` in `entrypoint`.
-/

set_option maxHeartbeats 1000000

namespace BillingConnector

/-- JSON-compatible JavaScript value. Numbers are modelled as integers
(no claim depends on float behaviour). -/
inductive Val where
  | vStr (s : String)
  | vNum (n : Int)
  | vBool (b : Bool)
  | vNull
  | vArr (elems : List Val)
  | vObj (fields : List (String × Val))

/-- JS truthiness of a value (`NaN` is out of the model). -/
def truthy : Val → Bool
  | .vStr s => s ≠ ""
  | .vNum n => n ≠ 0
  | .vBool b => b
  | .vNull => false
  | .vArr _ => true
  | .vObj _ => true

/-- Property read on a JS object: first matching key, `none` = `undefined`. -/
def jsGet {α : Type} : List (String × α) → String → Option α
  | [], _ => none
  | (k₁, v₁) :: rest, k => if k₁ = k then some v₁ else jsGet rest k

/-- Property assignment on a JS object: update the existing key in place,
otherwise append at the end (JS insertion-order semantics). -/
def jsSet {α : Type} : List (String × α) → String → α → List (String × α)
  | [], k, v => [(k, v)]
  | (k₁, v₁) :: rest, k, v =>
      if k₁ = k then (k₁, v) :: rest else (k₁, v₁) :: jsSet rest k v

/-- An OpenAPI operation object, per the fields the responder reads. -/
structure Operation where
  operationId : Option String := none
  description : Option String := none
  summary : Option String := none
  tags : List String := []

/-- One entry of the `servers` array. -/
structure Server where
  url : Option String := none

/-- The parsed API specification document (`swaggerDoc`). -/
structure SpecDoc where
  servers : Option (List Server) := none
  basePath : Option String := none
  info : Option (List (String × Val)) := none
  paths : Option (List (String × List (String × Operation))) := none

/-- A thrown JS error: message and stack. -/
structure JsError where
  message : String
  stack : String

/-- The two environment variables read by the responder
(`COMPONENT_NAME`, `RELEASE_NAME`); `none` = unset. -/
structure Env where
  componentName : Option String := none
  releaseName : Option String := none

/-- Identity defaults: both environment variables unset. -/
def defaultEnv : Env := {}

/-- Hard-coded default base path of the source. -/
def defaultBasePath : String := "/tmf-api/geographicAddressManagement/v4"

/-- Literal fallback for `info.version`. -/
def defaultVersion : String := "4.0.1"

/-- Literal fallback for `info.title`. -/
def defaultTitle : String := "Geographic Address Management API"

/-- JS `a || d` for an optional string `a` (absent and `""` are falsy). -/
def jsOrS (o : Option String) (d : String) : String :=
  match o with
  | some s => if s = "" then d else s
  | none => d

/-- JS `a || d` for an optional value `a` (absent and falsy fall back). -/
def jsOrV (o : Option Val) (d : Val) : Val :=
  match o with
  | some v => if truthy v then v else d
  | none => d

/-- Source expression `swaggerDoc?.servers?.[0]?.url`. -/
def firstServerUrl (spec : Option SpecDoc) : Option String :=
  ((spec.bind SpecDoc.servers).bind List.head?).bind Server.url

/-- The TypeError thrown by `swaggerDoc.basePath` when `swaggerDoc` is
absent (the access has no optional chaining in the source). -/
def typeErrorBasePath : JsError :=
  ⟨"Cannot read properties of undefined (reading 'basePath')",
   "TypeError: Cannot read properties of undefined (reading 'basePath')"⟩

/-- Source expression `swaggerDoc.basePath || default`; throws when the document is absent,
because the source reads `swaggerDoc.basePath` without optional chaining. -/
def fallbackBase : Option SpecDoc → Except JsError String
  | none => .error typeErrorBasePath
  | some sd => .ok (jsOrS sd.basePath defaultBasePath)

/-- Source expression `swaggerDoc?.servers?.[0]?.url || swaggerDoc.basePath || default`. -/
def resolveBasePath (spec : Option SpecDoc) : Except JsError String :=
  match firstServerUrl spec with
  | some u => if u = "" then fallbackBase spec else .ok u
  | none => fallbackBase spec

/-- Source expression `path.replace(/\/\//g, '/')` on the character list: sequential
non-overlapping global replacement of `//` by `/`. -/
def cleanPathL : List Char → List Char
  | '/' :: '/' :: rest => '/' :: cleanPathL rest
  | c :: rest => c :: cleanPathL rest
  | [] => []

/-- The `cleanPath` helper of the source. -/
def cleanPath (s : String) : String := String.mk (cleanPathL s.data)

/-- Source expression `str.replace(/\/$/, '')`: remove one trailing slash if present. -/
def stripGuts (s : String) : String :=
  match s.data.reverse with
  | '/' :: rest => String.mk rest.reverse
  | _ => s

/-- Source expression `str?.replace(/\/$/, '') || str`: remove one trailing slash; if the
result is the empty string (falsy), fall back to the original string. -/
def stripTrailingSlash (s : String) : String :=
  if stripGuts s = "" then s else stripGuts s

/-- Source expression `methodKey.toUpperCase()` (ASCII, as used for HTTP method keys). -/
def jsToUpper (s : String) : String := String.mk (s.data.map Char.toUpper)

/-- The `info` object iterated by the merge loop (`[]` when absent, which
also covers the `if (swaggerDoc?.info)` guard: an absent map merges
nothing). -/
def infoList (spec : Option SpecDoc) : List (String × Val) :=
  (spec.bind SpecDoc.info).getD []

/-- Source expression `swaggerDoc?.info?.<key>`. -/
def infoGet (spec : Option SpecDoc) (k : String) : Option Val :=
  (spec.bind SpecDoc.info).bind (fun o => jsGet o k)

/-- The `paths` object iterated by the operation loop (`[]` when absent). -/
def pathsList (spec : Option SpecDoc) :
    List (String × List (String × Operation)) :=
  (spec.bind SpecDoc.paths).getD []

/-- A link entry: a JS object from field name to value. -/
abbrev Entry := List (String × Val)

/-- The `linksObject`: link name to entry, in insertion order. -/
abbrev LinksObj := List (String × Entry)

/-- The explicitly constructed `self` entry, before the info merge. -/
def selfExplicit (spec : Option SpecDoc) (env : Env) (bp : String) : Entry :=
  [("href", .vStr bp),
   ("id", .vStr (jsOrS env.releaseName "tmf673")),
   ("name", .vStr (jsOrS env.componentName "geographicaddress")),
   ("status", .vStr "running"),
   ("version", jsOrV (infoGet spec "version") (.vStr defaultVersion)),
   ("title", jsOrV (infoGet spec "title") (.vStr defaultTitle)),
   ("description", jsOrV (infoGet spec "description") (.vStr "")),
   ("swagger-ui", .vStr (cleanPath (bp ++ "/api-docs"))),
   ("openapi", .vStr (cleanPath (bp ++ "/openapi")))]

/-- Source expression `!linksObject.self[infoKey]`: absent or falsy. -/
def jsFalsyAt (o : Entry) (k : String) : Bool :=
  match jsGet o k with
  | some v => !truthy v
  | none => true

/-- The info merge loop: `if (!self[k]) self[k] = info[k]` over the info
object in its own key order. -/
def mergeInfo (self : Entry) (info : List (String × Val)) : Entry :=
  info.foldl (fun acc kv => if jsFalsyAt acc kv.1 then jsSet acc kv.1 kv.2 else acc) self

/-- The `self` entry after the info merge loop. -/
def selfMerged (spec : Option SpecDoc) (env : Env) (bp : String) : Entry :=
  mergeInfo (selfExplicit spec env bp) (infoList spec)

/-- Source expression `operation.description || operation.summary || ''`. -/
def opDescription (op : Operation) : String :=
  jsOrS op.description (jsOrS op.summary "")

/-- The link entry built for one operation whose `operationId` is truthy. -/
def opEntry (bp pathKey methodKey : String) (op : Operation) : Entry :=
  let base : Entry :=
    [("href", .vStr (stripTrailingSlash bp ++ pathKey)),
     ("method", .vStr (jsToUpper methodKey)),
     ("description", .vStr (opDescription op)),
     ("operationId", .vStr (op.operationId.getD ""))]
  if op.tags = [] then base else base ++ [("tags", .vArr (op.tags.map .vStr))]

/-- Source guard `if (operation.operationId)`: the operationId when truthy. -/
def opIdTruthy (op : Operation) : Option String :=
  match op.operationId with
  | some s => if s = "" then none else some s
  | none => none

/-- One step of the operation loop on a `(pathKey, methodKey, operation)`
triple: add or overwrite the link named by a truthy operationId. -/
def addOp (bp : String) (acc : LinksObj) (t : String × String × Operation) :
    LinksObj :=
  match opIdTruthy t.2.2 with
  | some oid => jsSet acc oid (opEntry bp t.1 t.2.1 t.2.2)
  | none => acc

/-- The nested `for (pathKey in paths) for (methodKey in paths[pathKey])`
loops of the source. -/
def addOps (acc : LinksObj) (bp : String)
    (ps : List (String × List (String × Operation))) : LinksObj :=
  ps.foldl (fun a p => p.2.foldl (fun a2 m => addOp bp a2 (p.1, m.1, m.2)) a) acc

/-- The flattened traversal order of the nested operation loops. -/
def trav (ps : List (String × List (String × Operation))) :
    List (String × String × Operation) :=
  ps.flatMap (fun p => p.2.map (fun m => (p.1, m.1, m.2)))

/-- Build the `linksObject` for a loaded document; `Except.error` is a
thrown JS exception (only the base-path access can throw when the document
is absent; every other access is optional-chained or guarded). -/
def buildLinks (spec : Option SpecDoc) (env : Env) : Except JsError LinksObj :=
  match resolveBasePath spec with
  | .error e => .error e
  | .ok bp => .ok (addOps [("self", selfMerged spec env bp)] bp (pathsList spec))

/-- Source call `getSwaggerDoc()` followed by the body of the `try` block: a loader
that throws short-circuits into the same `catch`. -/
def runBuild (loader : Except JsError (Option SpecDoc)) (env : Env) :
    Except JsError LinksObj :=
  match loader with
  | .error e => .error e
  | .ok spec => buildLinks spec env

/-- The response body: either the links document or the fixed error
document `{error, message}`. -/
inductive Body where
  | links (l : LinksObj)
  | errorDoc (error message : String)

/-- One structured report sent to the logging collaborator. -/
structure LogRec where
  msg : String
  errMessage : String
  stack : String

/-- The observable outcome of one invocation: HTTP status, content type,
body, and the reports sent to the logging collaborator. -/
structure Outcome where
  status : Nat
  contentType : String
  body : Body
  logs : List LogRec

/-- The `entrypoint(req, res)` handler: the `try`/`catch` around
`getSwaggerDoc()` and the document construction. -/
def entrypoint (loader : Except JsError (Option SpecDoc)) (env : Env) : Outcome :=
  match runBuild loader env with
  | .ok l => ⟨200, "application/json", .links l, []⟩
  | .error e =>
      ⟨500, "application/json",
       .errorDoc "Internal Server Error" "Unable to generate entrypoint response",
       [⟨"Entrypoint error", e.message, e.stack⟩]⟩

/-- The contract `respond(specification, identity)` with the specification reference
threaded to the post-state: the source performs only property reads on
`swaggerDoc` (no assignment targets it or any of its properties), so the
document leaves the call unchanged. -/
def respond (spec : Option SpecDoc) (env : Env) : Outcome × Option SpecDoc :=
  (entrypoint (.ok spec) env, spec)

/-- The base path the responder resolves for a present document (total:
only an absent document can throw). -/
def basePathOf (sd : SpecDoc) : String :=
  match firstServerUrl (some sd) with
  | some u => if u = "" then jsOrS sd.basePath defaultBasePath else u
  | none => jsOrS sd.basePath defaultBasePath

/-- Does the character list contain two adjacent separators (`//`)? -/
def hasDblL : List Char → Bool
  | '/' :: '/' :: _ => true
  | _ :: r => hasDblL r
  | [] => false

/-- Does the string contain a doubled path separator? -/
def hasDoubleSep (s : String) : Bool := hasDblL s.data

/-- Does the character list contain three adjacent separators (`///`)? -/
def hasTplL : List Char → Bool
  | '/' :: '/' :: '/' :: _ => true
  | _ :: r => hasTplL r
  | [] => false

/-- Does the character list end in two separators? -/
def endsDblL (l : List Char) : Bool :=
  (l.reverse.head? == some '/') && (l.reverse.tail.head? == some '/')

/-- Does the string end with a separator? -/
def lastSlash (s : String) : Bool := s.data.reverse.head? == some '/'

/-- Does the string start with a separator? -/
def headSlash (s : String) : Bool := s.data.head? == some '/'

/-- Is there a doubled separator at the join point of `a ++ b`? -/
def joinDoubleSep (a b : String) : Bool := lastSlash a && headSlash b

/-- The names of the nine explicitly constructed `self` fields. -/
def nineFieldNames : List String :=
  ["href", "id", "name", "status", "version", "title", "description",
   "swagger-ui", "openapi"]

/-- The operationIds the operation loop emits, in traversal order
(operations with an absent or empty operationId contribute nothing). -/
def truthyIds (sd : SpecDoc) : List String :=
  (trav (pathsList (some sd))).filterMap (fun t => opIdTruthy t.2.2)

/-- The last operation in traversal order that emits the link named
`oid`. -/
def lastEmit (sd : SpecDoc) (oid : String) :
    Option (String × String × Operation) :=
  ((trav (pathsList (some sd))).filter
    (fun t => decide (opIdTruthy t.2.2 = some oid))).getLast?

/-- Concrete document whose only operation is named `self`. -/
def specSelfClash : SpecDoc :=
  { paths := some [("/x", [("get", { operationId := some "self" })])] }

/-- Concrete document whose `info.description` is `null`. -/
def specNullDesc : SpecDoc :=
  { info := some [("description", Val.vNull)] }

/-- Concrete document with a present but empty `basePath`. -/
def specEmptyBase : SpecDoc := { basePath := some "" }

/-- Concrete document whose base path is three separators. -/
def specTripleSlash : SpecDoc :=
  { basePath := some "///",
    paths := some [("/foo", [("get", { operationId := some "f" })])] }

/-- The `/foo` scenario document of the specification. -/
def specFoo : SpecDoc :=
  { paths := some [("/foo",
      [("get", { operationId := some "listFoo", tags := ["a"] })])] }

/-- Concrete document with two operations sharing an operationId. -/
def specCollide : SpecDoc :=
  { paths := some [("/a",
      [("get", { operationId := some "dup", summary := some "first" }),
       ("post", { operationId := some "dup", description := some "second" })])] }

/-- Document whose base path is an absolute URL on the given host. -/
def specScheme (host : String) : SpecDoc :=
  { servers := some [{ url := some ("http://" ++ host) }],
    paths := some [("/foo", [("get", { operationId := some "f" })])] }

/-- The fixed error outcome of the `catch` branch for a caught error `e`. -/
def errorOutcome (e : JsError) : Outcome :=
  ⟨500, "application/json",
   .errorDoc "Internal Server Error" "Unable to generate entrypoint response",
   [⟨"Entrypoint error", e.message, e.stack⟩]⟩

/-- The links object constructed for a present document (total). -/
def linksOf (sd : SpecDoc) (env : Env) : LinksObj :=
  addOps [("self", selfMerged (some sd) env (basePathOf sd))]
    (basePathOf sd) (pathsList (some sd))

/-- The `self` entry built for the empty document under identity
defaults: all nine default literals. -/
def selfDefaultEntry : Entry :=
  [("href", .vStr defaultBasePath),
   ("id", .vStr "tmf673"),
   ("name", .vStr "geographicaddress"),
   ("status", .vStr "running"),
   ("version", .vStr defaultVersion),
   ("title", .vStr defaultTitle),
   ("description", .vStr ""),
   ("swagger-ui", .vStr "/tmf-api/geographicAddressManagement/v4/api-docs"),
   ("openapi", .vStr "/tmf-api/geographicAddressManagement/v4/openapi")]

theorem string_eq_of_data {a b : String} (h : a.data = b.data) : a = b := by
  cases a; cases b; exact congrArg String.mk h

theorem sdata_append (a b : String) : (a ++ b).data = a.data ++ b.data := by
  cases a; cases b; rfl

theorem jsGet_jsSet_self {α : Type} (o : List (String × α)) (k : String) (v : α) :
    jsGet (jsSet o k v) k = some v := by
  induction o with
  | nil => simp [jsSet, jsGet]
  | cons hd tl ih =>
      by_cases h : hd.1 = k
      · simp [jsSet, jsGet, h]
      · simp [jsSet, jsGet, h, ih]

theorem jsGet_jsSet_ne {α : Type} (o : List (String × α)) (k n : String) (v : α)
    (h : n ≠ k) : jsGet (jsSet o k v) n = jsGet o n := by
  induction o with
  | nil => simp [jsSet, jsGet, Ne.symm h]
  | cons hd tl ih =>
      by_cases h1 : hd.1 = k
      · by_cases h2 : hd.1 = n
        · exact absurd (h2.symm.trans h1) h
        · simp [jsSet, jsGet, h1, h2, Ne.symm h]
      · simp only [jsSet, h1, if_false]
        by_cases h2 : hd.1 = n
        · simp [jsGet, h2]
        · simp [jsGet, h2, ih]

theorem jsGet_jsSet_isSome {α : Type} (o : List (String × α)) (k n : String) (v : α) :
    (jsGet (jsSet o k v) n).isSome = true ↔ n = k ∨ (jsGet o n).isSome = true := by
  by_cases h : n = k
  · subst h; simp [jsGet_jsSet_self]
  · rw [jsGet_jsSet_ne o k n v h]; simp [h]

theorem jsGet_none_iff {α : Type} (o : List (String × α)) (k : String) :
    jsGet o k = none ↔ k ∉ o.map Prod.fst := by
  induction o with
  | nil => simp [jsGet]
  | cons hd tl ih =>
      by_cases h : hd.1 = k
      · simp [jsGet, h]
      · simp [jsGet, h, ih, Ne.symm h]

theorem jsGet_isSome_iff {α : Type} (o : List (String × α)) (k : String) :
    (jsGet o k).isSome = true ↔ k ∈ o.map Prod.fst := by
  rcases ho : jsGet o k with _ | v
  · rw [jsGet_none_iff] at ho; simp [ho]
  · have : k ∈ o.map Prod.fst := by
      by_contra hmem
      rw [← jsGet_none_iff] at hmem
      rw [hmem] at ho; cases ho
    simp [this]

theorem jsSet_keys_of_mem {α : Type} (o : List (String × α)) (k : String) (v : α)
    (h : k ∈ o.map Prod.fst) : (jsSet o k v).map Prod.fst = o.map Prod.fst := by
  induction o with
  | nil => simp at h
  | cons hd tl ih =>
      by_cases h1 : hd.1 = k
      · simp [jsSet, h1]
      · simp only [List.map_cons, List.mem_cons] at h
        rcases h with h | h
        · exact absurd h.symm h1
        · simp [jsSet, h1, ih h]

theorem jsSet_keys_of_not_mem {α : Type} (o : List (String × α)) (k : String) (v : α)
    (h : k ∉ o.map Prod.fst) :
    (jsSet o k v).map Prod.fst = o.map Prod.fst ++ [k] := by
  induction o with
  | nil => simp [jsSet]
  | cons hd tl ih =>
      simp only [List.map_cons, List.mem_cons] at h
      push_neg at h
      simp [jsSet, Ne.symm h.1, ih h.2]

theorem jsSet_keys_nodup {α : Type} (o : List (String × α)) (k : String) (v : α)
    (h : (o.map Prod.fst).Nodup) : ((jsSet o k v).map Prod.fst).Nodup := by
  by_cases hm : k ∈ o.map Prod.fst
  · rw [jsSet_keys_of_mem o k v hm]; exact h
  · rw [jsSet_keys_of_not_mem o k v hm]
    simp [List.nodup_append, h, hm]

/-- Claim C9: the responder never mutates the externally-owned
specification object: the source performs only property reads on
`swaggerDoc`, so the document after `respond(specification, identity)`
equals the document before, on the success path and on the error path
alike. -/
theorem claim_C9 (spec : Option SpecDoc) (env : Env) :
    (respond spec env).2 = spec := rfl

/-- Claim C7 (confirmed): whenever any exception is raised during
construction (the loader raising included), the responder returns the
fixed 500 outcome: body exactly
`{error: "Internal Server Error", message: "Unable to generate entrypoint response"}`
and exactly one error report (message and stack) to the logging
collaborator. -/
theorem claim_C7 (loader : Except JsError (Option SpecDoc)) (env : Env)
    (e : JsError) (h : runBuild loader env = .error e) :
    entrypoint loader env = errorOutcome e := by
  unfold entrypoint
  rw [h]
  rfl

/-- Witness for C7: a loader that raises yields the fixed 500 outcome
with one log report. -/
theorem claim_C7_witness :
    entrypoint (.error ⟨"boom", "Error: boom"⟩) defaultEnv
      = errorOutcome ⟨"boom", "Error: boom"⟩ :=
  claim_C7 (.error ⟨"boom", "Error: boom"⟩) defaultEnv ⟨"boom", "Error: boom"⟩ rfl

/-- Claim C1 (code bug): the claim says the responder never takes the
error branch, even for a fully absent (undefined/null) specification.
The code reads `swaggerDoc.basePath` without optional chaining (directly
after `swaggerDoc?.servers?.[0]?.url` on the same expression), so an
absent document throws a TypeError and the catch branch answers 500 —
while the empty object `{}` indeed yields the 200 default self-only
document the claim describes. -/
theorem claim_C1 :
    entrypoint (.ok none) defaultEnv = errorOutcome typeErrorBasePath
    ∧ entrypoint (.ok (some {})) defaultEnv
        = ⟨200, "application/json", .links [("self", selfDefaultEntry)], []⟩ :=
  ⟨rfl, rfl⟩

theorem mergeInfo_nil (self : Entry) : mergeInfo self [] = self := rfl

theorem mergeInfo_cons (self : Entry) (kv : String × Val)
    (rest : List (String × Val)) :
    mergeInfo self (kv :: rest)
      = mergeInfo (if jsFalsyAt self kv.1 then jsSet self kv.1 kv.2 else self)
          rest := rfl

theorem mergeInfo_truthy (info : List (String × Val)) (self : Entry)
    (k : String) (v : Val) (hv : jsGet self k = some v) (ht : truthy v = true) :
    jsGet (mergeInfo self info) k = some v := by
  induction info generalizing self with
  | nil => simpa [mergeInfo_nil] using hv
  | cons kv rest ih =>
      rw [mergeInfo_cons]
      by_cases hk : kv.1 = k
      · subst hk
        have hfa : jsFalsyAt self kv.1 = false := by
          simp [jsFalsyAt, hv, ht]
        rw [hfa]
        simp only [Bool.false_eq_true, if_false]
        exact ih self hv
      · by_cases hf : jsFalsyAt self kv.1 = true
        · rw [hf, if_pos rfl]
          exact ih _ (by rw [jsGet_jsSet_ne self kv.1 k kv.2 (Ne.symm hk)]; exact hv)
        · simp only [Bool.not_eq_true] at hf
          rw [hf]
          simp only [Bool.false_eq_true, if_false]
          exact ih self hv

theorem mergeInfo_isSome (info : List (String × Val)) (self : Entry)
    (k : String) (h : (jsGet self k).isSome = true) :
    (jsGet (mergeInfo self info) k).isSome = true := by
  induction info generalizing self with
  | nil => simpa [mergeInfo_nil] using h
  | cons kv rest ih =>
      rw [mergeInfo_cons]
      by_cases hf : jsFalsyAt self kv.1 = true
      · rw [hf, if_pos rfl]
        refine ih _ ?_
        rw [jsGet_jsSet_isSome]
        right; exact h
      · simp only [Bool.not_eq_true] at hf
        rw [hf]
        simp only [Bool.false_eq_true, if_false]
        exact ih self h

theorem mergeInfo_get_of_absent (info : List (String × Val)) (self : Entry)
    (k : String) (h : jsGet info k = none) :
    jsGet (mergeInfo self info) k = jsGet self k := by
  induction info generalizing self with
  | nil => simp [mergeInfo_nil]
  | cons kv rest ih =>
      have hk : kv.1 ≠ k := by
        intro hh
        simp [jsGet, hh] at h
      have hrest : jsGet rest k = none := by
        simpa [jsGet, hk] using h
      rw [mergeInfo_cons]
      by_cases hf : jsFalsyAt self kv.1 = true
      · rw [hf, if_pos rfl]
        rw [ih _ hrest]
        exact jsGet_jsSet_ne self kv.1 k kv.2 (Ne.symm hk)
      · simp only [Bool.not_eq_true] at hf
        rw [hf]
        simp only [Bool.false_eq_true, if_false]
        exact ih self hrest

theorem mergeInfo_get_of_key (info : List (String × Val)) (self : Entry)
    (k : String) (v : Val) (hnd : (info.map Prod.fst).Nodup)
    (h : jsGet info k = some v) :
    jsGet (mergeInfo self info) k
      = if jsFalsyAt self k then some v else jsGet self k := by
  induction info generalizing self with
  | nil => simp [jsGet] at h
  | cons kv rest ih =>
      simp only [List.map_cons, List.nodup_cons] at hnd
      rw [mergeInfo_cons]
      by_cases hk : kv.1 = k
      · subst hk
        have hv : kv.2 = v := by simpa [jsGet] using h
        have hrest : jsGet rest kv.1 = none := by
          rw [jsGet_none_iff]
          exact hnd.1
        by_cases hf : jsFalsyAt self kv.1 = true
        · rw [hf, if_pos rfl, if_pos rfl]
          rw [mergeInfo_get_of_absent rest _ kv.1 hrest]
          rw [jsGet_jsSet_self, hv]
        · simp only [Bool.not_eq_true] at hf
          rw [hf]
          simp only [Bool.false_eq_true, if_false]
          exact mergeInfo_get_of_absent rest self kv.1 hrest
      · have hrest : jsGet rest k = some v := by
          simpa [jsGet, hk] using h
        by_cases hf : jsFalsyAt self kv.1 = true
        · rw [hf, if_pos rfl]
          rw [ih _ hnd.2 hrest]
          have hg : jsGet (jsSet self kv.1 kv.2) k = jsGet self k :=
            jsGet_jsSet_ne self kv.1 k kv.2 (Ne.symm hk)
          have hfa : jsFalsyAt (jsSet self kv.1 kv.2) k = jsFalsyAt self k := by
            simp [jsFalsyAt, hg]
          rw [hfa, hg]
        · simp only [Bool.not_eq_true] at hf
          rw [hf]
          simp only [Bool.false_eq_true, if_false]
          exact ih self hnd.2 hrest

theorem jsFalsyAt_of_not_mem (o : Entry) (k : String)
    (h : k ∉ o.map Prod.fst) : jsFalsyAt o k = true := by
  rw [← jsGet_none_iff] at h
  simp [jsFalsyAt, h]

theorem mergeInfo_keys (info : List (String × Val)) (self : Entry)
    (hnd : (info.map Prod.fst).Nodup) :
    (mergeInfo self info).map Prod.fst
      = self.map Prod.fst
        ++ (info.map Prod.fst).filter
             (fun k => decide (k ∉ self.map Prod.fst)) := by
  induction info generalizing self with
  | nil => simp [mergeInfo_nil]
  | cons kv rest ih =>
      simp only [List.map_cons, List.nodup_cons] at hnd
      rw [mergeInfo_cons]
      simp only [List.map_cons, List.filter_cons]
      by_cases hm : kv.1 ∈ self.map Prod.fst
      · have hstep : (mergeInfo
            (if jsFalsyAt self kv.1 then jsSet self kv.1 kv.2 else self)
            rest).map Prod.fst
            = self.map Prod.fst
              ++ (rest.map Prod.fst).filter
                   (fun k => decide (k ∉ self.map Prod.fst)) := by
          by_cases hf : jsFalsyAt self kv.1 = true
          · rw [hf, if_pos rfl]
            have := ih (jsSet self kv.1 kv.2) hnd.2
            rw [jsSet_keys_of_mem self kv.1 kv.2 hm] at this
            exact this
          · simp only [Bool.not_eq_true] at hf
            rw [hf]
            simp only [Bool.false_eq_true, if_false]
            exact ih self hnd.2
        rw [hstep]
        simp [hm]
      · have hf : jsFalsyAt self kv.1 = true := jsFalsyAt_of_not_mem self kv.1 hm
        rw [hf, if_pos rfl]
        have hthis := ih (jsSet self kv.1 kv.2) hnd.2
        rw [jsSet_keys_of_not_mem self kv.1 kv.2 hm] at hthis
        rw [hthis]
        have hfilter : (rest.map Prod.fst).filter
            (fun k => decide (k ∉ self.map Prod.fst ++ [kv.1]))
            = (rest.map Prod.fst).filter
                (fun k => decide (k ∉ self.map Prod.fst)) := by
          apply List.filter_congr
          intro x hx
          have hxk : x ≠ kv.1 := by
            intro hh
            exact hnd.1 (hh ▸ hx)
          simp [List.mem_append, hxk]
        rw [hfilter]
        simp [hm]

theorem resolve_some (sd : SpecDoc) :
    resolveBasePath (some sd) = .ok (basePathOf sd) := by
  unfold resolveBasePath basePathOf
  cases firstServerUrl (some sd) with
  | none => rfl
  | some u =>
      by_cases hu : u = ""
      · simp [hu, fallbackBase]
      · simp [hu]

theorem jsOrS_ne_empty (o : Option String) (d : String) (hd : d ≠ "") :
    jsOrS o d ≠ "" := by
  unfold jsOrS
  cases o with
  | none => exact hd
  | some s =>
      by_cases hs : s = ""
      · simp [hs, hd]
      · simp [hs]

theorem basePathOf_ne_empty (sd : SpecDoc) : basePathOf sd ≠ "" := by
  unfold basePathOf
  cases firstServerUrl (some sd) with
  | none => exact jsOrS_ne_empty _ _ (by decide)
  | some u =>
      by_cases hu : u = ""
      · simp only [hu, if_pos rfl]
        exact jsOrS_ne_empty _ _ (by decide)
      · simp only [if_neg hu]
        exact hu

theorem buildLinks_some (sd : SpecDoc) (env : Env) :
    buildLinks (some sd) env = .ok (linksOf sd env) := by
  unfold buildLinks linksOf
  rw [resolve_some]

/-- Claim C4 (corrected): base-path resolution is the ordered three-way
fallback of the claim, except that a present but empty `basePath` is
skipped as falsy (the `||` chain) and resolution falls through to the
hard default. Conjuncts: the program resolves `basePathOf`; a non-empty
first server url wins; otherwise a present non-empty `basePath` wins;
otherwise the hard default. -/
theorem claim_C4 (sd : SpecDoc) :
    resolveBasePath (some sd) = .ok (basePathOf sd)
    ∧ (∀ s rest u, sd.servers = some (s :: rest) → s.url = some u → u ≠ "" →
        basePathOf sd = u)
    ∧ ((∀ u, firstServerUrl (some sd) = some u → u = "") →
        ∀ b, sd.basePath = some b → b ≠ "" → basePathOf sd = b)
    ∧ ((∀ u, firstServerUrl (some sd) = some u → u = "") →
        (sd.basePath = none ∨ sd.basePath = some "") →
        basePathOf sd = defaultBasePath) := by
  refine ⟨resolve_some sd, ?_, ?_, ?_⟩
  · intro s rest u hs hu hne
    have hfs : firstServerUrl (some sd) = some u := by
      simp [firstServerUrl, hs, hu]
    unfold basePathOf
    rw [hfs]
    simp [hne]
  · intro hfal b hb hbne
    unfold basePathOf
    cases hfs : firstServerUrl (some sd) with
    | none => simp [jsOrS, hb, hbne]
    | some u =>
        rw [hfal u hfs]
        simp [jsOrS, hb, hbne]
  · intro hfal hb
    unfold basePathOf
    cases hfs : firstServerUrl (some sd) with
    | none =>
        rcases hb with hb | hb <;> simp [jsOrS, hb]
    | some u =>
        rw [hfal u hfs]
        rcases hb with hb | hb <;> simp [jsOrS, hb]

/-- Claim C4 counterexample: `basePath` present but equal to `""` — the
claim says the resolved base path equals `basePath`, but the code skips
the falsy value and resolves the hard default instead. -/
theorem claim_C4_counterexample :
    specEmptyBase.basePath = some ""
    ∧ resolveBasePath (some specEmptyBase) = .ok defaultBasePath
    ∧ defaultBasePath ≠ "" :=
  ⟨rfl, rfl, by decide⟩

/-- Witness for C4: a document whose first server url is non-empty
resolves that url. -/
theorem claim_C4_witness :
    basePathOf { servers := some [{ url := some "/srv" }] } = "/srv" :=
  (claim_C4 { servers := some [{ url := some "/srv" }] }).2.1
    { url := some "/srv" } [] "/srv" rfl rfl (by decide)

theorem opEntry_get_href (bp p m : String) (op : Operation) :
    jsGet (opEntry bp p m op) "href"
      = some (.vStr (stripTrailingSlash bp ++ p)) := by
  unfold opEntry
  by_cases ht : op.tags = [] <;> simp [ht, jsGet]

theorem opEntry_get_method (bp p m : String) (op : Operation) :
    jsGet (opEntry bp p m op) "method" = some (.vStr (jsToUpper m)) := by
  unfold opEntry
  by_cases ht : op.tags = [] <;> simp [ht, jsGet]

theorem opEntry_get_description (bp p m : String) (op : Operation) :
    jsGet (opEntry bp p m op) "description"
      = some (.vStr (opDescription op)) := by
  unfold opEntry
  by_cases ht : op.tags = [] <;> simp [ht, jsGet]

theorem opEntry_get_operationId (bp p m : String) (op : Operation) :
    jsGet (opEntry bp p m op) "operationId"
      = some (.vStr (op.operationId.getD "")) := by
  unfold opEntry
  by_cases ht : op.tags = [] <;> simp [ht, jsGet]

theorem opEntry_get_tags_nil (bp p m : String) (op : Operation)
    (ht : op.tags = []) : jsGet (opEntry bp p m op) "tags" = none := by
  unfold opEntry
  simp [ht, jsGet]

theorem opEntry_get_tags_ne (bp p m : String) (op : Operation)
    (ht : op.tags ≠ []) :
    jsGet (opEntry bp p m op) "tags" = some (.vArr (op.tags.map .vStr)) := by
  unfold opEntry
  simp [ht, jsGet]

/-- Claim C8 (confirmed): an emitted operation entry's `method` is the
uppercased method mapping key; `description` is the operation's
description, falling back (on absence or emptiness, JS `||`) to summary
and then to `""`; `tags` is present iff the tag sequence is non-empty and
carries it verbatim; and the `/foo` scenario yields exactly the
`_links.listFoo` entry of the specification. -/
theorem claim_C8 :
    (∀ bp p m (op : Operation),
        jsGet (opEntry bp p m op) "method" = some (.vStr (jsToUpper m))
        ∧ (∀ d, op.description = some d → d ≠ "" →
            jsGet (opEntry bp p m op) "description" = some (.vStr d))
        ∧ ((op.description = none ∨ op.description = some "") →
            ∀ s2, op.summary = some s2 → s2 ≠ "" →
              jsGet (opEntry bp p m op) "description" = some (.vStr s2))
        ∧ ((op.description = none ∨ op.description = some "") →
            (op.summary = none ∨ op.summary = some "") →
              jsGet (opEntry bp p m op) "description" = some (.vStr ""))
        ∧ (op.tags = [] → jsGet (opEntry bp p m op) "tags" = none)
        ∧ (op.tags ≠ [] →
            jsGet (opEntry bp p m op) "tags"
              = some (.vArr (op.tags.map .vStr))))
    ∧ buildLinks (some specFoo) defaultEnv
        = .ok [("self", selfDefaultEntry),
               ("listFoo",
                [("href", .vStr (defaultBasePath ++ "/foo")),
                 ("method", .vStr "GET"),
                 ("description", .vStr ""),
                 ("operationId", .vStr "listFoo"),
                 ("tags", .vArr [.vStr "a"])])] := by
  constructor
  · intro bp p m op
    refine ⟨opEntry_get_method bp p m op, ?_, ?_, ?_,
            opEntry_get_tags_nil bp p m op, opEntry_get_tags_ne bp p m op⟩
    · intro d hd hne
      rw [opEntry_get_description]
      simp [opDescription, hd, jsOrS, hne]
    · intro hdesc s2 hs2 hne
      rw [opEntry_get_description]
      rcases hdesc with hd | hd <;> simp [opDescription, hd, hs2, jsOrS, hne]
    · intro hdesc hsum
      rw [opEntry_get_description]
      rcases hdesc with hd | hd <;> rcases hsum with hs | hs <;>
        simp [opDescription, hd, hs, jsOrS]
  · rfl

/-- Witness for C8: an operation with empty description and a non-empty
summary gets the summary as its description. -/
theorem claim_C8_witness :
    jsGet (opEntry "/b" "/p" "get" { summary := some "s" }) "description"
      = some (.vStr "s") :=
  (claim_C8.1 "/b" "/p" "get" { summary := some "s" }).2.2.1
    (Or.inl rfl) "s" rfl (by decide)

theorem string_ne_empty_iff (s : String) : s ≠ "" ↔ s.data ≠ [] := by
  constructor
  · intro h hdata
    exact h (string_eq_of_data (by simp [hdata]))
  · intro h hs
    rw [hs] at h
    exact h rfl

theorem cleanPathL_ne_nil (l : List Char) (h : l ≠ []) : cleanPathL l ≠ [] := by
  cases l with
  | nil => exact absurd rfl h
  | cons c t =>
      rw [cleanPathL.eq_def]
      split <;> simp_all

theorem cleanPath_ne_empty (s : String) (h : s ≠ "") : cleanPath s ≠ "" := by
  rw [string_ne_empty_iff] at h ⊢
  exact cleanPathL_ne_nil s.data h

theorem append_suffix_ne_empty (a b : String) (hb : b ≠ "") : a ++ b ≠ "" := by
  rw [string_ne_empty_iff] at hb ⊢
  rw [sdata_append]
  simp [hb]

theorem jsOrV_truthy (o : Option Val) (d : Val) (hd : truthy d = true) :
    truthy (jsOrV o d) = true := by
  unfold jsOrV
  cases o with
  | none => exact hd
  | some v =>
      by_cases hv : truthy v = true
      · simp [hv]
      · simp only [Bool.not_eq_true] at hv
        simp [hv, hd]

theorem infoGet_eq (spec : Option SpecDoc) (k : String) :
    infoGet spec k = jsGet (infoList spec) k := by
  unfold infoGet infoList
  cases spec with
  | none => simp [jsGet]
  | some sd => cases h : sd.info <;> simp [h, jsGet]

theorem selfExplicit_keys (spec : Option SpecDoc) (env : Env) (bp : String) :
    (selfExplicit spec env bp).map Prod.fst = nineFieldNames := rfl

theorem selfExplicit_get_description (spec : Option SpecDoc) (env : Env)
    (bp : String) :
    jsGet (selfExplicit spec env bp) "description"
      = some (jsOrV (infoGet spec "description") (.vStr "")) := by
  simp [selfExplicit, jsGet]

theorem selfExplicit_get_status (spec : Option SpecDoc) (env : Env)
    (bp : String) :
    jsGet (selfExplicit spec env bp) "status" = some (.vStr "running") := by
  simp [selfExplicit, jsGet]

theorem selfExplicit_truthy_at (spec : Option SpecDoc) (env : Env) (bp : String)
    (hbp : bp ≠ "") (k : String) (hk : k ∈ nineFieldNames)
    (hne : k ≠ "description") :
    ∃ v, jsGet (selfExplicit spec env bp) k = some v ∧ truthy v = true := by
  have hts : truthy (.vStr (cleanPath (bp ++ "/api-docs"))) = true := by
    have h1 : ("/api-docs" : String) ≠ "" := by decide
    have h2 := cleanPath_ne_empty _ (append_suffix_ne_empty bp "/api-docs" h1)
    simp [truthy, h2]
  have hto : truthy (.vStr (cleanPath (bp ++ "/openapi"))) = true := by
    have h1 : ("/openapi" : String) ≠ "" := by decide
    have h2 := cleanPath_ne_empty _ (append_suffix_ne_empty bp "/openapi" h1)
    simp [truthy, h2]
  simp only [nineFieldNames, List.mem_cons, List.not_mem_nil, or_false] at hk
  rcases hk with rfl | rfl | rfl | rfl | rfl | rfl | rfl | rfl | rfl
  · refine ⟨.vStr bp, ?_, ?_⟩
    · simp [selfExplicit, jsGet]
    · simp [truthy, hbp]
  · refine ⟨.vStr (jsOrS env.releaseName "tmf673"), ?_, ?_⟩
    · simp [selfExplicit, jsGet]
    · simp [truthy, jsOrS_ne_empty env.releaseName "tmf673" (by decide)]
  · refine ⟨.vStr (jsOrS env.componentName "geographicaddress"), ?_, ?_⟩
    · simp [selfExplicit, jsGet]
    · simp [truthy, jsOrS_ne_empty env.componentName "geographicaddress" (by decide)]
  · refine ⟨.vStr "running", ?_, ?_⟩
    · simp [selfExplicit, jsGet]
    · decide
  · refine ⟨jsOrV (infoGet spec "version") (.vStr defaultVersion), ?_, ?_⟩
    · simp [selfExplicit, jsGet]
    · exact jsOrV_truthy _ _ (by decide)
  · refine ⟨jsOrV (infoGet spec "title") (.vStr defaultTitle), ?_, ?_⟩
    · simp [selfExplicit, jsGet]
    · exact jsOrV_truthy _ _ (by decide)
  · exact absurd rfl hne
  · refine ⟨.vStr (cleanPath (bp ++ "/api-docs")), ?_, ?_⟩
    · simp [selfExplicit, jsGet]
    · exact hts
  · refine ⟨.vStr (cleanPath (bp ++ "/openapi")), ?_, ?_⟩
    · simp [selfExplicit, jsGet]
    · exact hto

/-- Claim C3 (corrected): explicit self-link fields other than
`description` are never changed by the info merge loop, and `description`
itself is unchanged whenever the same-named info value is truthy or the
empty string; info keys not among the explicit fields are appended in the
info mapping's own key order (for a duplicate-free info mapping). The
merge check is JS truthiness, so a falsy non-empty-string
`info.description` (e.g. `null`) does overwrite the explicit field — see
the counterexample. -/
theorem claim_C3 (sd : SpecDoc) (env : Env) :
    (∀ k, k ∈ nineFieldNames → k ≠ "description" →
        jsGet (selfMerged (some sd) env (basePathOf sd)) k
          = jsGet (selfExplicit (some sd) env (basePathOf sd)) k)
    ∧ (∀ v, jsGet (infoList (some sd)) "description" = some v →
        ((infoList (some sd)).map Prod.fst).Nodup →
        (truthy v = true ∨ v = .vStr "") →
        jsGet (selfMerged (some sd) env (basePathOf sd)) "description"
          = jsGet (selfExplicit (some sd) env (basePathOf sd)) "description")
    ∧ (((infoList (some sd)).map Prod.fst).Nodup →
        (selfMerged (some sd) env (basePathOf sd)).map Prod.fst
          = nineFieldNames
            ++ ((infoList (some sd)).map Prod.fst).filter
                 (fun k => decide (k ∉ nineFieldNames))) := by
  refine ⟨?_, ?_, ?_⟩
  · intro k hk hne
    obtain ⟨v, hv, ht⟩ :=
      selfExplicit_truthy_at (some sd) env (basePathOf sd)
        (basePathOf_ne_empty sd) k hk hne
    unfold selfMerged
    rw [mergeInfo_truthy _ _ k v hv ht, hv]
  · intro v hv hnd hcase
    rcases hcase with ht | hstr
    · have hexp : jsGet (selfExplicit (some sd) env (basePathOf sd)) "description"
          = some v := by
        rw [selfExplicit_get_description, infoGet_eq, hv]
        simp [jsOrV, ht]
      unfold selfMerged
      rw [mergeInfo_truthy _ _ "description" v hexp ht, hexp]
    · subst hstr
      have hexp : jsGet (selfExplicit (some sd) env (basePathOf sd)) "description"
          = some (.vStr "") := by
        rw [selfExplicit_get_description, infoGet_eq, hv]
        simp [jsOrV, truthy]
      unfold selfMerged
      rw [mergeInfo_get_of_key _ _ _ _ hnd hv, hexp]
      by_cases hf : jsFalsyAt (selfExplicit (some sd) env (basePathOf sd))
          "description" = true
      · rw [hf, if_pos rfl]
      · simp only [Bool.not_eq_true] at hf
        rw [hf]
        simp [hexp]
  · intro hnd
    unfold selfMerged
    rw [mergeInfo_keys _ _ hnd, selfExplicit_keys]

/-- Claim C3 counterexample: `info = {description: null}` — the explicit
`description` resolves to `""` (falsy), the merge check `!self[k]`
passes, and the field is overwritten with `null`, so an explicit field's
value is changed by a same-named info key. -/
theorem claim_C3_counterexample :
    jsGet (selfExplicit (some specNullDesc) defaultEnv (basePathOf specNullDesc))
        "description" = some (.vStr "")
    ∧ jsGet (selfMerged (some specNullDesc) defaultEnv (basePathOf specNullDesc))
        "description" = some .vNull
    ∧ buildLinks (some specNullDesc) defaultEnv
        = .ok [("self",
            [("href", .vStr defaultBasePath),
             ("id", .vStr "tmf673"),
             ("name", .vStr "geographicaddress"),
             ("status", .vStr "running"),
             ("version", .vStr defaultVersion),
             ("title", .vStr defaultTitle),
             ("description", .vNull),
             ("swagger-ui", .vStr "/tmf-api/geographicAddressManagement/v4/api-docs"),
             ("openapi", .vStr "/tmf-api/geographicAddressManagement/v4/openapi")])] :=
  ⟨rfl, rfl, rfl⟩

/-- Witness for C3: the `status` field is untouched by the merge on the
null-description document. -/
theorem claim_C3_witness :
    jsGet (selfMerged (some specNullDesc) defaultEnv (basePathOf specNullDesc))
        "status"
      = jsGet (selfExplicit (some specNullDesc) defaultEnv (basePathOf specNullDesc))
          "status" :=
  (claim_C3 specNullDesc defaultEnv).1 "status" (by decide) (by decide)

theorem addOps_eq (bp : String) (ps : List (String × List (String × Operation)))
    (acc : LinksObj) : addOps acc bp ps = (trav ps).foldl (addOp bp) acc := by
  induction ps generalizing acc with
  | nil => simp [addOps, trav]
  | cons p rest ih =>
      have hstep : addOps acc bp (p :: rest)
          = addOps (p.2.foldl (fun a2 m => addOp bp a2 (p.1, m.1, m.2)) acc) bp
              rest := rfl
      rw [hstep, ih]
      have htrav : trav (p :: rest)
          = p.2.map (fun m => (p.1, m.1, m.2)) ++ trav rest := by
        simp [trav]
      rw [htrav, List.foldl_append, List.foldl_map]

theorem foldl_addOp_get_of_ne (bp : String)
    (ts : List (String × String × Operation)) (acc : LinksObj) (n : String)
    (h : ∀ t ∈ ts, opIdTruthy t.2.2 ≠ some n) :
    jsGet (ts.foldl (addOp bp) acc) n = jsGet acc n := by
  induction ts generalizing acc with
  | nil => rfl
  | cons t rest ih =>
      rw [List.foldl_cons]
      rw [ih _ (fun u hu => h u (List.mem_cons_of_mem t hu))]
      unfold addOp
      cases ho : opIdTruthy t.2.2 with
      | none => rfl
      | some oid =>
          have : oid ≠ n := by
            intro hh
            exact h t (List.mem_cons_self t rest) (by rw [ho, hh])
          exact jsGet_jsSet_ne acc oid n _ (Ne.symm this)

theorem foldl_addOp_isSome (bp : String)
    (ts : List (String × String × Operation)) (acc : LinksObj) (n : String) :
    (jsGet (ts.foldl (addOp bp) acc) n).isSome = true ↔
      (jsGet acc n).isSome = true
        ∨ n ∈ ts.filterMap (fun t => opIdTruthy t.2.2) := by
  induction ts generalizing acc with
  | nil => simp
  | cons t rest ih =>
      rw [List.foldl_cons, ih]
      unfold addOp
      cases ho : opIdTruthy t.2.2 with
      | none => simp [ho]
      | some oid =>
          rw [jsGet_jsSet_isSome]
          simp only [List.filterMap_cons, ho, List.mem_cons]
          tauto

theorem foldl_addOp_last (bp : String)
    (ts : List (String × String × Operation)) (acc : LinksObj) (oid : String)
    (t : String × String × Operation)
    (h : (ts.filter (fun t => decide (opIdTruthy t.2.2 = some oid))).getLast?
          = some t) :
    jsGet (ts.foldl (addOp bp) acc) oid
      = some (opEntry bp t.1 t.2.1 t.2.2) := by
  induction ts using List.reverseRecOn generalizing acc with
  | nil => simp at h
  | append_singleton ts u ih =>
      rw [List.foldl_append, List.foldl_cons, List.foldl_nil]
      rw [List.filter_append] at h
      by_cases hu : opIdTruthy u.2.2 = some oid
      · have hfu : List.filter (fun t => decide (opIdTruthy t.2.2 = some oid)) [u]
            = [u] := by simp [hu]
        rw [hfu, List.getLast?_concat] at h
        have ht : t = u := by injection h with hh; exact hh.symm
        subst ht
        unfold addOp
        rw [hu]
        exact jsGet_jsSet_self _ _ _
      · have hfu : List.filter (fun t => decide (opIdTruthy t.2.2 = some oid)) [u]
            = [] := by simp [hu]
        rw [hfu, List.append_nil] at h
        have hprev := ih acc h
        unfold addOp
        cases ho : opIdTruthy u.2.2 with
        | none => exact hprev
        | some oid2 =>
            have hne : oid ≠ oid2 := by
              intro hh
              exact hu (by rw [ho, hh])
            rw [jsGet_jsSet_ne _ _ _ _ hne]
            exact hprev

theorem foldl_addOp_keys_nodup (bp : String)
    (ts : List (String × String × Operation)) (acc : LinksObj)
    (h : (acc.map Prod.fst).Nodup) :
    (((ts.foldl (addOp bp) acc)).map Prod.fst).Nodup := by
  induction ts generalizing acc with
  | nil => exact h
  | cons t rest ih =>
      rw [List.foldl_cons]
      refine ih _ ?_
      unfold addOp
      cases opIdTruthy t.2.2 with
      | none => exact h
      | some oid => exact jsSet_keys_nodup acc oid _ h

/-- Claim C2 (corrected): for every specification none of whose
operations carries the (truthy) operationId `self`, the successful
response's `_links.self` entry contains all nine explicit fields with
`status = "running"`. Unrestricted the claim is false: an operation named
`self` overwrites the self entry — see the counterexample. -/
theorem claim_C2 (sd : SpecDoc) (env : Env)
    (hself : ∀ t ∈ trav (pathsList (some sd)), opIdTruthy t.2.2 ≠ some "self") :
    ∀ L, buildLinks (some sd) env = .ok L →
      ∃ e, jsGet L "self" = some e
        ∧ (∀ k ∈ nineFieldNames, (jsGet e k).isSome = true)
        ∧ jsGet e "status" = some (.vStr "running") := by
  intro L hL
  rw [buildLinks_some] at hL
  injection hL with hL
  subst hL
  refine ⟨selfMerged (some sd) env (basePathOf sd), ?_, ?_, ?_⟩
  · unfold linksOf
    rw [addOps_eq, foldl_addOp_get_of_ne _ _ _ _ hself]
    simp [jsGet]
  · intro k hk
    unfold selfMerged
    apply mergeInfo_isSome
    rw [jsGet_isSome_iff, selfExplicit_keys]
    exact hk
  · unfold selfMerged
    exact mergeInfo_truthy _ _ _ _ (selfExplicit_get_status _ _ _) (by decide)

/-- Claim C2 counterexample: a single operation with
`operationId: "self"` overwrites the self entry; the resulting
`_links.self` is the operation link and has no `status` field at all. -/
theorem claim_C2_counterexample :
    buildLinks (some specSelfClash) defaultEnv
      = .ok [("self",
          [("href", .vStr (defaultBasePath ++ "/x")),
           ("method", .vStr "GET"),
           ("description", .vStr ""),
           ("operationId", .vStr "self")])]
    ∧ jsGet [(("href" : String), Val.vStr (defaultBasePath ++ "/x")),
             ("method", Val.vStr "GET"),
             ("description", Val.vStr ""),
             ("operationId", Val.vStr "self")] "status" = none :=
  ⟨rfl, rfl⟩

/-- Witness for C2: the empty document has no operations, and its self
entry carries all nine fields. -/
theorem claim_C2_witness :
    ∃ e, jsGet [(("self" : String), selfDefaultEntry)] "self" = some e
      ∧ (∀ k ∈ nineFieldNames, (jsGet e k).isSome = true)
      ∧ jsGet e "status" = some (.vStr "running") :=
  claim_C2 {} defaultEnv (by intro t ht; simp [trav, pathsList] at ht)
    [("self", selfDefaultEntry)] rfl

/-- Claim C6 (confirmed): link names are exactly `self` plus the truthy
operationIds (so an operation with a truthy operationId yields exactly
one link so named — the keys are duplicate-free — and operations without
one yield none), and on a collision the link content is that of the last
operation in paths/methods traversal order. -/
theorem claim_C6 (sd : SpecDoc) (env : Env) :
    ∀ L, buildLinks (some sd) env = .ok L →
      (L.map Prod.fst).Nodup
      ∧ (∀ name, (jsGet L name).isSome = true ↔
          name = "self" ∨ name ∈ truthyIds sd)
      ∧ (∀ oid p m op, lastEmit sd oid = some (p, m, op) →
          jsGet L oid = some (opEntry (basePathOf sd) p m op)) := by
  intro L hL
  rw [buildLinks_some] at hL
  injection hL with hL
  subst hL
  unfold linksOf
  rw [addOps_eq]
  refine ⟨?_, ?_, ?_⟩
  · exact foldl_addOp_keys_nodup _ _ _ (by simp)
  · intro name
    rw [foldl_addOp_isSome]
    unfold truthyIds
    have hinit : (jsGet [("self", selfMerged (some sd) env (basePathOf sd))]
        name).isSome = true ↔ name = "self" := by
      by_cases h : ("self" : String) = name
      · simp [jsGet, h]
      · simp [jsGet, h, Ne.symm h]
    rw [hinit]
  · intro oid p m op h
    unfold lastEmit at h
    exact foldl_addOp_last _ _ _ _ _ h

/-- Witness for C6: two operations share operationId `dup`; the emitted
link is the later operation's entry (the POST with description
`second`). -/
theorem claim_C6_witness :
    jsGet [(("self" : String), selfDefaultEntry),
           ("dup", [("href", Val.vStr (defaultBasePath ++ "/a")),
                    ("method", Val.vStr "POST"),
                    ("description", Val.vStr "second"),
                    ("operationId", Val.vStr "dup")])] "dup"
      = some (opEntry (basePathOf specCollide) "/a" "post"
          { operationId := some "dup", description := some "second" }) :=
  (claim_C6 specCollide defaultEnv
      [("self", selfDefaultEntry),
       ("dup", [("href", Val.vStr (defaultBasePath ++ "/a")),
                ("method", Val.vStr "POST"),
                ("description", Val.vStr "second"),
                ("operationId", Val.vStr "dup")])] rfl).2.2
    "dup" "/a" "post" { operationId := some "dup", description := some "second" }
    rfl

theorem cleanPathL_slash_slash (t : List Char) :
    cleanPathL ('/' :: '/' :: t) = '/' :: cleanPathL t := rfl

theorem cleanPathL_cons_of_ne (c : Char) (t : List Char) (h : c ≠ '/') :
    cleanPathL (c :: t) = c :: cleanPathL t := by
  rw [cleanPathL.eq_def]
  split
  · rename_i heq; injection heq with h1 _; exact absurd h1 h
  · rename_i heq; injection heq with h1 h2; rw [h1, h2]
  · rename_i heq; exact absurd heq (by simp)

theorem cleanPathL_slash_cons (t : List Char) (h : t.head? ≠ some '/') :
    cleanPathL ('/' :: t) = '/' :: cleanPathL t := by
  rw [cleanPathL.eq_def]
  split
  · rename_i heq
    injection heq with h1 h2
    rw [h2] at h
    simp at h
  · rename_i heq; injection heq with h1 h2; rw [h1, h2]
  · rename_i heq; exact absurd heq (by simp)

theorem hasDblL_slash_slash (t : List Char) : hasDblL ('/' :: '/' :: t) = true :=
  rfl

theorem hasDblL_cons_of_ne (c : Char) (t : List Char) (h : c ≠ '/') :
    hasDblL (c :: t) = hasDblL t := by
  rw [hasDblL.eq_def]
  split
  · rename_i heq; injection heq with h1 _; exact absurd h1 h
  · rename_i heq; injection heq with h1 h2; rw [h2]
  · rename_i heq; exact absurd heq (by simp)

theorem hasDblL_slash_cons (t : List Char) (h : t.head? ≠ some '/') :
    hasDblL ('/' :: t) = hasDblL t := by
  rw [hasDblL.eq_def]
  split
  · rename_i heq; injection heq with h1 h2; rw [h2] at h; simp at h
  · rename_i heq; injection heq with h1 h2; rw [h2]
  · rename_i heq; exact absurd heq (by simp)

theorem hasTplL_cons_false (a : Char) (t : List Char)
    (h : hasTplL (a :: t) = false) : hasTplL t = false := by
  rw [hasTplL.eq_def] at h
  split at h
  · exact absurd h (by simp)
  · rename_i heq; injection heq with h1 h2; rw [h2]; exact h
  · rename_i heq; exact absurd heq (by simp)

theorem noSlash_cleanPathL (r : List Char) (h : ∀ c ∈ r, c ≠ '/') :
    cleanPathL r = r := by
  induction r with
  | nil => rfl
  | cons c t ih =>
      rw [cleanPathL_cons_of_ne c t (h c (List.mem_cons_self c t))]
      rw [ih (fun x hx => h x (List.mem_cons_of_mem c hx))]

theorem noSlash_hasDblL (r : List Char) (h : ∀ c ∈ r, c ≠ '/') :
    hasDblL r = false := by
  induction r with
  | nil => rfl
  | cons c t ih =>
      rw [hasDblL_cons_of_ne c t (h c (List.mem_cons_self c t))]
      exact ih (fun x hx => h x (List.mem_cons_of_mem c hx))

theorem noSlash_head (r : List Char) (h : ∀ c ∈ r, c ≠ '/') :
    r.head? ≠ some '/' := by
  cases r with
  | nil => simp
  | cons c t =>
      have hc := h c (List.mem_cons_self c t)
      simp [hc]

theorem endsDblL_cons_of_long (a : Char) (t : List Char) (h : 2 ≤ t.length) :
    endsDblL (a :: t) = endsDblL t := by
  obtain ⟨x, t1, ht⟩ : ∃ x t1, t.reverse = x :: t1 := by
    cases htr : t.reverse with
    | nil =>
        exfalso
        have : t = [] := by simpa using congrArg List.reverse htr
        rw [this] at h
        simp at h
    | cons x t1 => exact ⟨x, t1, rfl⟩
  obtain ⟨y, t2, ht2⟩ : ∃ y t2, t1 = y :: t2 := by
    cases ht1 : t1 with
    | nil =>
        exfalso
        have hlen := congrArg List.length ht
        rw [ht1] at hlen
        simp at hlen
        omega
    | cons y t2 => exact ⟨y, t2, rfl⟩
  subst ht2
  unfold endsDblL
  rw [List.reverse_cons, ht]
  simp

theorem endsDblL_tail (a : Char) (t : List Char)
    (h : endsDblL (a :: t) = false) : endsDblL t = false := by
  match t with
  | [] => decide
  | [x] => simp [endsDblL]
  | x :: y :: t2 =>
      rw [endsDblL_cons_of_long a (x :: y :: t2) (by simp)] at h
      exact h

theorem hasDbl_clean_slash_noSlash (r : List Char) (hr : ∀ c ∈ r, c ≠ '/') :
    hasDblL (cleanPathL ('/' :: r)) = false := by
  have hhead := noSlash_head r hr
  rw [cleanPathL_slash_cons r hhead, noSlash_cleanPathL r hr,
      hasDblL_slash_cons r hhead]
  exact noSlash_hasDblL r hr

theorem cleanPathL_append_no_dbl :
    ∀ n (l : List Char), l.length ≤ n → hasTplL l = false →
      endsDblL l = false → ∀ r : List Char, (∀ c ∈ r, c ≠ '/') →
        hasDblL (cleanPathL (l ++ '/' :: r)) = false := by
  intro n
  induction n with
  | zero =>
      intro l hlen h3 h2 r hr
      have hl : l = [] := List.length_eq_zero.mp (Nat.le_zero.mp hlen)
      subst hl
      simpa using hasDbl_clean_slash_noSlash r hr
  | succ n ih =>
      intro l hlen h3 h2 r hr
      rcases l with _ | ⟨a, _ | ⟨b, l3⟩⟩
      · simpa using hasDbl_clean_slash_noSlash r hr
      · by_cases ha : a = '/'
        · subst ha
          simp only [List.cons_append, List.nil_append]
          rw [cleanPathL_slash_slash, noSlash_cleanPathL r hr,
              hasDblL_slash_cons r (noSlash_head r hr)]
          exact noSlash_hasDblL r hr
        · simp only [List.cons_append, List.nil_append]
          rw [cleanPathL_cons_of_ne a _ ha, hasDblL_cons_of_ne a _ ha]
          exact hasDbl_clean_slash_noSlash r hr
      · by_cases ha : a = '/'
        · by_cases hb : b = '/'
          · subst ha
            subst hb
            cases l3 with
            | nil => exact absurd h2 (by decide)
            | cons c l4 =>
                have hc : c ≠ '/' := by
                  intro hcc
                  subst hcc
                  have ht : hasTplL ('/' :: '/' :: '/' :: l4) = true := rfl
                  rw [ht] at h3
                  simp at h3
                have h3' : hasTplL (c :: l4) = false :=
                  hasTplL_cons_false _ _ (hasTplL_cons_false _ _ h3)
                have h2' : endsDblL (c :: l4) = false :=
                  endsDblL_tail _ _ (endsDblL_tail _ _ h2)
                have hlen' : (c :: l4).length ≤ n := by
                  simp only [List.length_cons] at hlen ⊢
                  omega
                have hrec := ih (c :: l4) hlen' h3' h2' r hr
                simp only [List.cons_append] at hrec ⊢
                rw [cleanPathL_slash_slash, cleanPathL_cons_of_ne c _ hc,
                    hasDblL_slash_cons _ (by simp [hc])]
                rw [cleanPathL_cons_of_ne c _ hc] at hrec
                exact hrec
          · subst ha
            have h3' : hasTplL (b :: l3) = false := hasTplL_cons_false _ _ h3
            have h2' : endsDblL (b :: l3) = false := endsDblL_tail _ _ h2
            have hlen' : (b :: l3).length ≤ n := by
              simp only [List.length_cons] at hlen ⊢
              omega
            have hrec := ih (b :: l3) hlen' h3' h2' r hr
            simp only [List.cons_append] at hrec ⊢
            rw [cleanPathL_slash_cons _ (by simp [hb]), cleanPathL_cons_of_ne b _ hb,
                hasDblL_slash_cons _ (by simp [hb])]
            rw [cleanPathL_cons_of_ne b _ hb] at hrec
            exact hrec
        · have h3' : hasTplL (b :: l3) = false := hasTplL_cons_false _ _ h3
          have h2' : endsDblL (b :: l3) = false := endsDblL_tail _ _ h2
          have hlen' : (b :: l3).length ≤ n := by
            simp only [List.length_cons] at hlen ⊢
            omega
          have hrec := ih (b :: l3) hlen' h3' h2' r hr
          simp only [List.cons_append] at hrec ⊢
          rw [cleanPathL_cons_of_ne a _ ha, hasDblL_cons_of_ne a _ ha]
          exact hrec

theorem stripGuts_of_not_slash (s : String)
    (h : s.data.reverse.head? ≠ some '/') : stripGuts s = s := by
  unfold stripGuts
  split
  · rename_i heq; rw [heq] at h; simp at h
  · rfl

theorem stripGuts_of_slash (s : String) (rest : List Char)
    (h : s.data.reverse = '/' :: rest) :
    stripGuts s = String.mk rest.reverse := by
  unfold stripGuts
  split
  · rename_i heq
    rw [h] at heq
    injection heq with h1 h2
    rw [h2]
  · rename_i hne
    exact absurd (hne rest h) (by simp)

theorem strip_eq_of_not_lastSlash (s : String) (h : lastSlash s = false) :
    stripTrailingSlash s = s := by
  have hg : stripGuts s = s := by
    apply stripGuts_of_not_slash
    unfold lastSlash at h
    simpa using h
  unfold stripTrailingSlash
  rw [hg]
  split <;> rfl

theorem strip_not_lastSlash (bp : String) (h1 : bp ≠ "/")
    (h2 : endsDblL bp.data = false) :
    lastSlash (stripTrailingSlash bp) = false := by
  cases hrev : bp.data.reverse with
  | nil =>
      have hbp : bp.data = [] := by simpa using congrArg List.reverse hrev
      have hempty : bp = "" := string_eq_of_data (by simp [hbp])
      subst hempty
      decide
  | cons x rest =>
      by_cases hx : x = '/'
      · subst hx
        have hg : stripGuts bp = String.mk rest.reverse :=
          stripGuts_of_slash bp rest hrev
        cases hrest : rest with
        | nil =>
            exfalso
            apply h1
            apply string_eq_of_data
            have hd : bp.data = ['/'] := by
              have hh := congrArg List.reverse hrev
              rw [hrest] at hh
              simpa using hh
            rw [hd]
        | cons y rest2 =>
            have hy : y ≠ '/' := by
              unfold endsDblL at h2
              rw [hrev, hrest] at h2
              simpa using h2
            rw [hrest] at hg
            have hne : String.mk (y :: rest2).reverse ≠ "" := by
              rw [string_ne_empty_iff]
              simp
            unfold stripTrailingSlash
            rw [hg, if_neg hne]
            unfold lastSlash
            simp [hy]
      · have hstrip : stripTrailingSlash bp = bp := by
          apply strip_eq_of_not_lastSlash
          unfold lastSlash
          rw [hrev]
          simp [hx]
        rw [hstrip]
        unfold lastSlash
        rw [hrev]
        simp [hx]

theorem cleanPath_no_dbl (bp suffix : String) (h3 : hasTplL bp.data = false)
    (h2 : endsDblL bp.data = false)
    (hsfx : ∃ r, suffix.data = '/' :: r ∧ ∀ c ∈ r, c ≠ '/') :
    hasDoubleSep (cleanPath (bp ++ suffix)) = false := by
  obtain ⟨r, hs, hr⟩ := hsfx
  show hasDblL (cleanPathL ((bp ++ suffix).data)) = false
  rw [sdata_append, hs]
  exact cleanPathL_append_no_dbl bp.data.length bp.data (le_refl _) h3 h2 r hr

/-- Claim C5 (corrected): for every base path that contains no three
consecutive separators and does not end in two separators, the two
derived tooling links contain no doubled separator (one trailing
separator is fine: the claim's intended case); and for every base path
other than the lone separator `"/"` that does not end in two
separators, every operation href has no doubled separator at the join
between the stripped base path and the path suffix. Unrestricted the
claim is false — `cleanPath` replaces `//` pairs sequentially, so `///`
collapses to `//`, and `stripTrailingSlash` keeps `"/"` (and one slash of
a `//`-ending) intact; see the counterexample. -/
theorem claim_C5 (bp : String) :
    (hasTplL bp.data = false → endsDblL bp.data = false →
      hasDoubleSep (cleanPath (bp ++ "/api-docs")) = false
      ∧ hasDoubleSep (cleanPath (bp ++ "/openapi")) = false)
    ∧ (bp ≠ "/" → endsDblL bp.data = false →
      ∀ p m (op : Operation),
        jsGet (opEntry bp p m op) "href"
          = some (.vStr (stripTrailingSlash bp ++ p))
        ∧ joinDoubleSep (stripTrailingSlash bp) p = false) := by
  constructor
  · intro h3 h2
    constructor
    · exact cleanPath_no_dbl bp "/api-docs" h3 h2
        ⟨['a', 'p', 'i', '-', 'd', 'o', 'c', 's'], rfl, by decide⟩
    · exact cleanPath_no_dbl bp "/openapi" h3 h2
        ⟨['o', 'p', 'e', 'n', 'a', 'p', 'i'], rfl, by decide⟩
  · intro h1 h2 p m op
    refine ⟨opEntry_get_href bp p m op, ?_⟩
    unfold joinDoubleSep
    rw [strip_not_lastSlash bp h1 h2]
    simp

/-- Claim C5 counterexample: base path `///` (three separators). The
sequential `//`-replacement leaves `//api-docs` and `//openapi` in the
tooling links, and the single-slash strip leaves `//`, so the operation
href `///foo` is doubled at the join. -/
theorem claim_C5_counterexample :
    buildLinks (some specTripleSlash) defaultEnv
      = .ok [("self",
          [("href", .vStr "///"),
           ("id", .vStr "tmf673"),
           ("name", .vStr "geographicaddress"),
           ("status", .vStr "running"),
           ("version", .vStr defaultVersion),
           ("title", .vStr defaultTitle),
           ("description", .vStr ""),
           ("swagger-ui", .vStr "//api-docs"),
           ("openapi", .vStr "//openapi")]),
         ("f",
          [("href", .vStr "///foo"),
           ("method", .vStr "GET"),
           ("description", .vStr ""),
           ("operationId", .vStr "f")])]
    ∧ hasDoubleSep "//api-docs" = true
    ∧ hasDoubleSep "//openapi" = true
    ∧ hasDoubleSep "///foo" = true
    ∧ joinDoubleSep (stripTrailingSlash "///") "/foo" = true :=
  ⟨rfl, rfl, rfl, rfl, rfl⟩

/-- Witness for C5: the default base path yields clean tooling links and
a clean join. -/
theorem claim_C5_witness :
    (hasDoubleSep (cleanPath (defaultBasePath ++ "/api-docs")) = false
     ∧ hasDoubleSep (cleanPath (defaultBasePath ++ "/openapi")) = false)
    ∧ joinDoubleSep (stripTrailingSlash defaultBasePath) "/foo" = false :=
  ⟨(claim_C5 defaultBasePath).1 (by decide) (by decide),
   ((claim_C5 defaultBasePath).2 (by decide) (by decide) "/foo" "get" {}).2⟩

theorem cleanPathL_append_noSlash (l r : List Char) (h : ∀ c ∈ l, c ≠ '/') :
    cleanPathL (l ++ r) = l ++ cleanPathL r := by
  induction l with
  | nil => simp
  | cons c t ih =>
      rw [List.cons_append,
          cleanPathL_cons_of_ne c _ (h c (List.mem_cons_self c t)),
          ih (fun x hx => h x (List.mem_cons_of_mem c hx))]
      rfl

theorem cleanPath_scheme (host suffix : String)
    (hh : ∀ c ∈ host.data, c ≠ '/') :
    cleanPath ("http://" ++ host ++ suffix)
      = "http:/" ++ host ++ cleanPath suffix := by
  apply string_eq_of_data
  show cleanPathL (("http://" ++ host ++ suffix).data)
      = ("http:/" ++ host ++ cleanPath suffix).data
  simp only [sdata_append]
  have hc : (cleanPath suffix).data = cleanPathL suffix.data := rfl
  rw [hc]
  show cleanPathL (['h', 't', 't', 'p', ':', '/', '/'] ++ host.data ++ suffix.data)
      = ['h', 't', 't', 'p', ':', '/'] ++ host.data ++ cleanPathL suffix.data
  simp only [List.append_assoc, List.cons_append, List.nil_append]
  rw [cleanPathL_cons_of_ne _ _ (by decide), cleanPathL_cons_of_ne _ _ (by decide),
      cleanPathL_cons_of_ne _ _ (by decide), cleanPathL_cons_of_ne _ _ (by decide),
      cleanPathL_cons_of_ne _ _ (by decide), cleanPathL_slash_slash,
      cleanPathL_append_noSlash host.data suffix.data hh]

theorem lastSlash_append (a b : String) (hb : b ≠ "")
    (h : ∀ c ∈ b.data, c ≠ '/') : lastSlash (a ++ b) = false := by
  unfold lastSlash
  rw [sdata_append, List.reverse_append]
  cases hbd : b.data.reverse with
  | nil =>
      exfalso
      rw [string_ne_empty_iff] at hb
      apply hb
      simpa using congrArg List.reverse hbd
  | cons x xs =>
      have hx : x ∈ b.data := by
        have hmem : x ∈ b.data.reverse := by
          rw [hbd]
          exact List.mem_cons_self x xs
        simpa using hmem
      simp [hbd, h x hx]

/-- Claim C10 (confirmed): when the resolved base path is an absolute URL
`http://<host>`, the global `//`-collapse applied to the two derived
tooling links also collapses the scheme separator — `swagger-ui` and
`openapi` read `http:/<host>/...` — while the self entry's `href` and the
operation hrefs keep the original `http://<host>` prefix, which is never
passed through `cleanPath`. -/
theorem claim_C10 (host : String) (h1 : host ≠ "")
    (h2 : ∀ c ∈ host.data, c ≠ '/') :
    ∀ L, buildLinks (some (specScheme host)) defaultEnv = .ok L →
      ∃ e f, jsGet L "self" = some e
        ∧ jsGet e "href" = some (.vStr ("http://" ++ host))
        ∧ jsGet e "swagger-ui" = some (.vStr ("http:/" ++ host ++ "/api-docs"))
        ∧ jsGet e "openapi" = some (.vStr ("http:/" ++ host ++ "/openapi"))
        ∧ jsGet L "f" = some f
        ∧ jsGet f "href" = some (.vStr ("http://" ++ host ++ "/foo")) := by
  intro L hL
  have hbp : basePathOf (specScheme host) = "http://" ++ host := by
    have hfs : firstServerUrl (some (specScheme host))
        = some ("http://" ++ host) := rfl
    unfold basePathOf
    rw [hfs]
    simp [append_suffix_ne_empty "http://" host h1]
  rw [buildLinks_some] at hL
  injection hL with hL
  subst hL
  have hlinks : linksOf (specScheme host) defaultEnv
      = [("self", selfExplicit (some (specScheme host)) defaultEnv
            (basePathOf (specScheme host))),
         ("f", opEntry (basePathOf (specScheme host)) "/foo" "get"
            { operationId := some "f" })] := rfl
  rw [hlinks]
  refine ⟨selfExplicit (some (specScheme host)) defaultEnv
            (basePathOf (specScheme host)),
          opEntry (basePathOf (specScheme host)) "/foo" "get"
            { operationId := some "f" },
          ?_, ?_, ?_, ?_, ?_, ?_⟩
  · simp [jsGet]
  · simp [selfExplicit, jsGet, hbp]
  · have hsw : jsGet (selfExplicit (some (specScheme host)) defaultEnv
        (basePathOf (specScheme host))) "swagger-ui"
        = some (.vStr (cleanPath (basePathOf (specScheme host) ++ "/api-docs"))) := by
      simp [selfExplicit, jsGet]
    rw [hsw, hbp, cleanPath_scheme host "/api-docs" h2,
        show cleanPath "/api-docs" = "/api-docs" from rfl]
  · have hop : jsGet (selfExplicit (some (specScheme host)) defaultEnv
        (basePathOf (specScheme host))) "openapi"
        = some (.vStr (cleanPath (basePathOf (specScheme host) ++ "/openapi"))) := by
      simp [selfExplicit, jsGet]
    rw [hop, hbp, cleanPath_scheme host "/openapi" h2,
        show cleanPath "/openapi" = "/openapi" from rfl]
  · simp [jsGet]
  · rw [opEntry_get_href, hbp,
        strip_eq_of_not_lastSlash _ (lastSlash_append "http://" host h1 h2)]

/-- Witness for C10: host `host` — tooling links read `http:/host/...`,
hrefs keep `http://host`. -/
theorem claim_C10_witness :
    ∃ e f,
      jsGet [(("self" : String),
              selfExplicit (some (specScheme "host")) defaultEnv
                (basePathOf (specScheme "host"))),
             ("f", opEntry (basePathOf (specScheme "host")) "/foo" "get"
                { operationId := some "f" })] "self" = some e
      ∧ jsGet e "href" = some (.vStr ("http://" ++ "host"))
      ∧ jsGet e "swagger-ui" = some (.vStr ("http:/" ++ "host" ++ "/api-docs"))
      ∧ jsGet e "openapi" = some (.vStr ("http:/" ++ "host" ++ "/openapi"))
      ∧ jsGet [(("self" : String),
              selfExplicit (some (specScheme "host")) defaultEnv
                (basePathOf (specScheme "host"))),
             ("f", opEntry (basePathOf (specScheme "host")) "/foo" "get"
                { operationId := some "f" })] "f" = some f
      ∧ jsGet f "href" = some (.vStr ("http://" ++ "host" ++ "/foo")) :=
  claim_C10 "host" (by decide) (by decide) _ rfl

end BillingConnector
